import Mathlib

/-!
# Verification of the flight-itinerary ranking service

Shallow embedding of the core of `src/service/main.py` and
`src/service/src/preprocessing.py` (a pandas feature-engineering pipeline,
batch-level model routing, and per-request ranking), together with proofs
of the specified properties.

Conventions of the embedding:

* pandas/NumPy floating-point cells are modelled by `PFloat`: either a
  finite rational, `+inf`, `-inf`, or `nan` (the missing-value marker).
  Arithmetic follows IEEE semantics on these values (`nan` propagates,
  `inf - inf = nan`, division by zero produces a signed infinity or `nan`),
  with exact rationals standing in for finite doubles — none of the
  verified properties depends on rounding.
* timestamps are minutes since an epoch (`ℤ`), with `Option ℤ` where a
  value can be `NaT`.
* probabilities returned by the models are plain rationals (the models
  never return `nan`).
* DataFrame rows that reach the service boundary are association lists
  from column name to `Cell` (a JSON-ish dynamic value), mirroring the
  dict-of-dicts wire format of `/predict_batch`.
-/

/-- A pandas/NumPy float cell: finite value, signed infinity, or `NaN`
(the missing-value marker produced e.g. by `NaT` arithmetic). -/
inductive PFloat : Type where
  | nan : PFloat
  | inf : PFloat
  | ninf : PFloat
  | val (q : ℚ) : PFloat
deriving DecidableEq, Repr

/-- `pd.isna` on a float cell. -/
def PFloat.isna : PFloat → Bool
  | .nan => true
  | _ => false

/-- IEEE negation. -/
def PFloat.neg : PFloat → PFloat
  | .nan => .nan
  | .inf => .ninf
  | .ninf => .inf
  | .val q => .val (-q)

/-- IEEE addition on float cells (`nan` propagates, `inf + -inf = nan`). -/
def PFloat.add : PFloat → PFloat → PFloat
  | .nan, _ => .nan
  | _, .nan => .nan
  | .inf, .ninf => .nan
  | .ninf, .inf => .nan
  | .inf, _ => .inf
  | _, .inf => .inf
  | .ninf, _ => .ninf
  | _, .ninf => .ninf
  | .val a, .val b => .val (a + b)

/-- IEEE subtraction, `a - b = a + (-b)`. -/
def PFloat.sub (a b : PFloat) : PFloat := a.add b.neg

/-- IEEE division on float cells.  Division of a finite value by zero
yields a signed infinity (`0/0 = nan`), exactly as NumPy float division
does (it warns, but never raises). -/
def PFloat.div : PFloat → PFloat → PFloat
  | .nan, _ => .nan
  | _, .nan => .nan
  | .inf, .inf => .nan
  | .inf, .ninf => .nan
  | .ninf, .inf => .nan
  | .ninf, .ninf => .nan
  | .inf, .val b => if b < 0 then .ninf else .inf
  | .ninf, .val b => if b < 0 then .inf else .ninf
  | .val _, .inf => .val 0
  | .val _, .ninf => .val 0
  | .val a, .val b =>
      if b = 0 then (if a = 0 then .nan else if 0 < a then .inf else .ninf)
      else .val (a / b)

/-- IEEE strict `>` comparison: any comparison with `nan` is `false`. -/
def PFloat.gt : PFloat → PFloat → Bool
  | .nan, _ => false
  | _, .nan => false
  | .inf, .inf => false
  | .inf, _ => true
  | _, .inf => false
  | .ninf, _ => false
  | _, .ninf => true
  | .val a, .val b => decide (b < a)

/-- IEEE non-strict `≤` on non-`nan` cells (used only under `skipna`
filtering, where `nan` never reaches it; on `nan` it returns `false`
like IEEE). -/
def PFloat.le : PFloat → PFloat → Bool
  | .nan, _ => false
  | _, .nan => false
  | .ninf, _ => true
  | _, .ninf => false
  | _, .inf => true
  | .inf, _ => false
  | .val a, .val b => decide (a ≤ b)

/-- Binary minimum on non-`nan` cells. -/
def PFloat.min2 (a b : PFloat) : PFloat := if a.le b then a else b

/-- `Series.min()` with pandas' default `skipna=True`: the minimum of the
non-`nan` entries, or `nan` when there are none. -/
def pandasMin (xs : List PFloat) : PFloat :=
  match xs.filter (fun x => !x.isna) with
  | [] => .nan
  | y :: ys => ys.foldl PFloat.min2 y

/-- Sum of the non-`nan` entries (pandas `Series.sum()` with `skipna`). -/
def pandasSum (xs : List PFloat) : PFloat :=
  (xs.filter (fun x => !x.isna)).foldl PFloat.add (.val 0)

/-- `Series.mean()` with pandas' default `skipna=True`: sum of non-`nan`
entries over their count, or `nan` when there are none. -/
def pandasMean (xs : List PFloat) : PFloat :=
  match xs.filter (fun x => !x.isna) with
  | [] => .nan
  | y :: ys => ((y :: ys).foldl PFloat.add (.val 0)).div (.val ((ys.length + 1 : ℕ) : ℚ))

/-!
## Direct-flight classification (`preprocessing.py` lines 190–198)

```python
X_["is_direct"] = X_[["SegmentCount", "back_hours"]].apply(
    lambda x: 1
    if (
        (x.SegmentCount == 1 and pd.isna(x.back_hours))
        or (x.SegmentCount == 2 and x.back_hours > 0)
    )
    else 0,
    axis=1,
)
```

`x.back_hours > 0` is an IEEE comparison, so it is `False` when
`back_hours` is `NaN`.
-/

/-- The row-wise `is_direct` lambda of `RequestTransformer.transform`. -/
def is_direct (segmentCount : ℤ) (back_hours : PFloat) : ℤ :=
  if (segmentCount = 1 ∧ back_hours.isna = true)
      ∨ (segmentCount = 2 ∧ back_hours.gt (.val 0) = true) then 1 else 0

/-- C3: `is_direct` is 1 exactly on (SegmentCount 1, missing back_hours) or
(SegmentCount 2, positive back_hours), 0 otherwise; including the four
specified sample points. -/
theorem is_direct_characterization :
    (∀ (sc : ℤ) (bh : PFloat),
      (is_direct sc bh = 1 ↔
        ((sc = 1 ∧ bh.isna = true) ∨ (sc = 2 ∧ bh.gt (.val 0) = true))) ∧
      (is_direct sc bh = 0 ↔
        ¬ ((sc = 1 ∧ bh.isna = true) ∨ (sc = 2 ∧ bh.gt (.val 0) = true)))) ∧
    is_direct 2 .nan = 0 ∧ is_direct 3 (.val 2) = 0 ∧
    is_direct 1 .nan = 1 ∧ is_direct 2 (.val 5) = 1 := by
  refine ⟨fun sc bh => ?_, by decide, by decide, by decide, by decide⟩
  unfold is_direct
  constructor
  · constructor
    · intro h
      by_contra hc
      simp only [if_neg hc] at h
      exact absurd h (by decide)
    · intro h
      simp [h]
  · constructor
    · intro h
      intro hc
      simp only [if_pos hc] at h
      exact absurd h (by decide)
    · intro h
      simp [h]

/-!
## Time-zone conversion

`convert_time_zones` lives in `src/service/src/utils.py`, which is not part
of the sources under verification; only its call sites in
`preprocessing.py` (lines 116–132) are.  It is therefore modelled from the
specification contract.
-/

/-- Modelled from the spec: `convert_time_zones` (`src/service/src/utils.py`,
absent from the sources) — "Interprets `timestamp` as wall-clock time in
`from_zone`, then re-expresses the same absolute instant as wall-clock time
in `to_zone`."  Zones are fixed UTC offsets in minutes east of UTC;
timestamps are wall-clock minutes. -/
def convert_time_zones (timestamp from_off to_off : ℤ) : ℤ :=
  timestamp - from_off + to_off

/-- The absolute instant (UTC minutes) denoted by wall-clock time `t` in a
zone of offset `off` minutes east of UTC. -/
def wallToUtc (t off : ℤ) : ℤ := t - off

/-- C8: zone conversion preserves the absolute instant, and 22:00 wall
clock in UTC−5 re-expressed in UTC+1 is 04:00 the next day (minute 1680
counted from the departure day's midnight, i.e. 28:00). -/
theorem convert_time_zones_preserves_instant :
    (∀ t zf zt : ℤ, wallToUtc (convert_time_zones t zf zt) zt = wallToUtc t zf) ∧
    convert_time_zones (22 * 60) (-5 * 60) (1 * 60) = 28 * 60 := by
  constructor
  · intro t zf zt
    unfold convert_time_zones wallToUtc
    ring
  · decide

/-!
## Flag normalization (`preprocessing.py` lines 60–69)

```python
X_["IsBaggage"] = X_["IsBaggage"].fillna(0)
...
X_["IsBaggage"] = X_["IsBaggage"].astype(int)
```

The three flag columns carry JSON booleans, 0/1 numbers, or missing
values (the spec data model declares them "booleans, optional").
-/

/-- A raw cell of one of the boolean-ish flag columns. -/
inductive FlagCell : Type where
  | missing : FlagCell
  | boolv (b : Bool) : FlagCell
  | numv (q : ℚ) : FlagCell
deriving DecidableEq, Repr

/-- `.fillna(0)` on a flag cell. -/
def fillna_zero : FlagCell → FlagCell
  | .missing => .numv 0
  | c => c

/-- `.astype(int)` on a flag cell: booleans map to 1/0, floats truncate
toward zero.  A missing cell never reaches this point in the pipeline
(it was filled with 0); NumPy would raise on it, we map it to 0. -/
def astype_int : FlagCell → ℤ
  | .missing => 0
  | .boolv b => if b then 1 else 0
  | .numv q => q.num.tdiv q.den

/-- The composed `fillna(0).astype(int)` coercion applied to each of
`IsBaggage`, `isRefundPermitted`, `isExchangePermitted`. -/
def coerce_flag (c : FlagCell) : ℤ := astype_int (fillna_zero c)

/-- `TravellerGrade.fillna("Unknown")`. -/
def fill_traveller_grade (g : Option String) : String := g.getD "Unknown"

/-- C9: on boolean-or-missing input (the declared domain of the three flag
columns) the coercion lands in {0, 1}, with missing mapped to 0; and a
missing `TravellerGrade` becomes `"Unknown"` while present grades are kept. -/
theorem flag_normalization (c : FlagCell)
    (h : c = .missing ∨ c = .boolv true ∨ c = .boolv false ∨
         c = .numv 0 ∨ c = .numv 1) :
    (coerce_flag c = 0 ∨ coerce_flag c = 1) ∧
    (c = .missing → coerce_flag c = 0) ∧
    fill_traveller_grade none = "Unknown" ∧
    (∀ s : String, fill_traveller_grade (some s) = s) := by
  refine ⟨?_, ?_, rfl, fun s => rfl⟩
  · rcases h with h | h | h | h | h <;> subst h <;> decide
  · intro h0
    subst h0
    decide

/-- Witness for C9 at concrete inputs. -/
theorem flag_normalization_witness :
    (coerce_flag .missing = 0 ∨ coerce_flag .missing = 1) ∧
    (FlagCell.missing = .missing → coerce_flag .missing = 0) ∧
    fill_traveller_grade none = "Unknown" ∧
    (∀ s : String, fill_traveller_grade (some s) = s) :=
  flag_normalization .missing (Or.inl rfl)

/-!
## Ranking (`main.py` lines 74–78)

```python
batch["rank_level"] = (
    batch.groupby(["RequestID"])["probas"]
    .rank(method="first", ascending=False)
    .astype(int)
)
```

With `ascending=False` and `method="first"`, the rank of a row is one plus
the number of rows of the same `RequestID` group that either have a
strictly larger probability or have an equal probability and appear
earlier in the batch.  Probabilities come from `predict_proba` and are
plain (non-`nan`) numbers, modelled as `ℚ`.
-/

/-- Row `j` is ordered strictly before row `i` by
`rank(method="first", ascending=False)`: larger probability, or equal
probability and earlier position. -/
def beats {κ : Type} (batch : List (κ × ℚ)) (j i : Fin batch.length) : Prop :=
  (batch.get i).2 < (batch.get j).2 ∨
    ((batch.get j).2 = (batch.get i).2 ∧ j < i)

instance {κ : Type} (batch : List (κ × ℚ)) (j i : Fin batch.length) :
    Decidable (beats batch j i) := by
  unfold beats
  infer_instance

/-- The indices of the `RequestID` group `g` inside the batch. -/
def groupIdx {κ : Type} [DecidableEq κ] (batch : List (κ × ℚ)) (g : κ) :
    Finset (Fin batch.length) :=
  Finset.univ.filter (fun i => (batch.get i).1 = g)

/-- The rank assigned to row `i` by
`groupby(["RequestID"])["probas"].rank(method="first", ascending=False).astype(int)`:
one plus the number of same-group rows ordered strictly before it. -/
def rank_level {κ : Type} [DecidableEq κ] (batch : List (κ × ℚ))
    (i : Fin batch.length) : ℕ :=
  1 + (Finset.univ.filter (fun j : Fin batch.length =>
        (batch.get j).1 = (batch.get i).1 ∧ beats batch j i)).card

theorem beats_irrefl {κ : Type} (batch : List (κ × ℚ)) (i : Fin batch.length) :
    ¬ beats batch i i := by
  unfold beats
  rintro (h | ⟨-, h⟩)
  · exact lt_irrefl _ h
  · exact lt_irrefl _ h

theorem beats_trans {κ : Type} (batch : List (κ × ℚ)) (k j i : Fin batch.length)
    (h1 : beats batch k j) (h2 : beats batch j i) : beats batch k i := by
  unfold beats at h1 h2 ⊢
  rcases h1 with h1 | ⟨h1e, h1l⟩
  · rcases h2 with h2 | ⟨h2e, h2l⟩
    · exact Or.inl (lt_trans h2 h1)
    · exact Or.inl (h2e ▸ h1)
  · rcases h2 with h2 | ⟨h2e, h2l⟩
    · exact Or.inl (h1e ▸ h2)
    · exact Or.inr ⟨h1e.trans h2e, lt_trans h1l h2l⟩

theorem beats_total {κ : Type} (batch : List (κ × ℚ)) (i j : Fin batch.length)
    (hne : i ≠ j) : beats batch i j ∨ beats batch j i := by
  unfold beats
  rcases lt_trichotomy (batch.get i).2 (batch.get j).2 with h | h | h
  · exact Or.inr (Or.inl h)
  · rcases lt_or_gt_of_ne hne with hl | hl
    · exact Or.inl (Or.inr ⟨h, hl⟩)
    · exact Or.inr (Or.inr ⟨h.symm, hl⟩)
  · exact Or.inl (Or.inl h)

/-- The set of same-group rows ordered before `i`. -/
def beatSet {κ : Type} [DecidableEq κ] (batch : List (κ × ℚ))
    (i : Fin batch.length) : Finset (Fin batch.length) :=
  Finset.univ.filter (fun j => (batch.get j).1 = (batch.get i).1 ∧ beats batch j i)

theorem rank_level_eq_beatSet {κ : Type} [DecidableEq κ] (batch : List (κ × ℚ))
    (i : Fin batch.length) : rank_level batch i = 1 + (beatSet batch i).card := rfl

theorem beatSet_ssubset {κ : Type} [DecidableEq κ] (batch : List (κ × ℚ))
    (i j : Fin batch.length) (hg : (batch.get i).1 = (batch.get j).1)
    (hb : beats batch i j) : beatSet batch i ⊂ beatSet batch j := by
  constructor
  · intro k hk
    rw [beatSet, Finset.mem_filter] at hk ⊢
    exact ⟨hk.1, hk.2.1.trans hg, beats_trans batch k i j hk.2.2 hb⟩
  · intro hsub
    have hij : i ∈ beatSet batch j := by
      rw [beatSet, Finset.mem_filter]
      exact ⟨Finset.mem_univ i, hg, hb⟩
    have hii : i ∈ beatSet batch i := hsub hij
    rw [beatSet, Finset.mem_filter] at hii
    exact beats_irrefl batch i hii.2.2

theorem rank_level_lt_of_beats {κ : Type} [DecidableEq κ] (batch : List (κ × ℚ))
    (i j : Fin batch.length) (hg : (batch.get i).1 = (batch.get j).1)
    (hb : beats batch i j) : rank_level batch i < rank_level batch j := by
  rw [rank_level_eq_beatSet, rank_level_eq_beatSet]
  exact Nat.add_lt_add_left (Finset.card_lt_card (beatSet_ssubset batch i j hg hb)) 1

theorem rank_level_le_card {κ : Type} [DecidableEq κ] (batch : List (κ × ℚ))
    (g : κ) (i : Fin batch.length) (hi : i ∈ groupIdx batch g) :
    rank_level batch i ≤ (groupIdx batch g).card := by
  rw [rank_level_eq_beatSet]
  have hsub : beatSet batch i ⊆ (groupIdx batch g).erase i := by
    intro k hk
    rw [beatSet, Finset.mem_filter] at hk
    rw [Finset.mem_erase]
    rw [groupIdx, Finset.mem_filter] at hi ⊢
    refine ⟨?_, Finset.mem_univ k, hk.2.1.trans hi.2⟩
    intro hki
    exact beats_irrefl batch i (hki ▸ hk.2.2)
  have hcard := Finset.card_le_card hsub
  have herase : ((groupIdx batch g).erase i).card = (groupIdx batch g).card - 1 :=
    Finset.card_erase_of_mem hi
  have hpos : 1 ≤ (groupIdx batch g).card := Finset.card_pos.mpr ⟨i, hi⟩
  omega

/-- C1: within every `RequestID` group of every batch, the ranks produced
by `rank_level` are exactly the set `{1, …, N}` where `N` is the size of
the group: no duplicates, no gaps, a rank for every row (and the rank is a
natural number, matching `.astype(int)`). -/
theorem rank_level_permutation {κ : Type} [DecidableEq κ]
    (batch : List (κ × ℚ)) (g : κ) :
    (groupIdx batch g).image (rank_level batch) =
      Finset.Icc 1 (groupIdx batch g).card := by
  have hinj : Set.InjOn (rank_level batch) ↑(groupIdx batch g) := by
    intro i hi j hj hij
    by_contra hne
    have hgi : (batch.get i).1 = g := by
      have := Finset.mem_coe.mp hi
      rw [groupIdx, Finset.mem_filter] at this
      exact this.2
    have hgj : (batch.get j).1 = g := by
      have := Finset.mem_coe.mp hj
      rw [groupIdx, Finset.mem_filter] at this
      exact this.2
    have hg : (batch.get i).1 = (batch.get j).1 := hgi.trans hgj.symm
    rcases beats_total batch i j hne with hb | hb
    · exact absurd hij (Nat.ne_of_lt (rank_level_lt_of_beats batch i j hg hb))
    · exact absurd hij.symm
        (Nat.ne_of_lt (rank_level_lt_of_beats batch j i hg.symm hb))
  have hsub : (groupIdx batch g).image (rank_level batch) ⊆
      Finset.Icc 1 (groupIdx batch g).card := by
    intro x hx
    rcases Finset.mem_image.mp hx with ⟨i, hi, hxi⟩
    rw [Finset.mem_Icc]
    refine ⟨?_, hxi ▸ rank_level_le_card batch g i hi⟩
    rw [← hxi, rank_level_eq_beatSet]
    omega
  have hcard : ((groupIdx batch g).image (rank_level batch)).card =
      (Finset.Icc 1 (groupIdx batch g).card).card := by
    rw [Finset.card_image_of_injOn hinj, Nat.card_Icc]
    omega
  exact Finset.eq_of_subset_of_card_le hsub (le_of_eq hcard.symm)

/-- C4: within a `RequestID` group, a strictly higher probability never
gets a worse (larger) rank, and equal probabilities keep their input
order (the earlier row gets the strictly better rank). -/
theorem rank_level_monotone {κ : Type} [DecidableEq κ]
    (batch : List (κ × ℚ)) (i j : Fin batch.length)
    (hg : (batch.get i).1 = (batch.get j).1) :
    ((batch.get j).2 < (batch.get i).2 →
      rank_level batch i ≤ rank_level batch j) ∧
    ((batch.get i).2 = (batch.get j).2 → i < j →
      rank_level batch i < rank_level batch j) := by
  constructor
  · intro hp
    exact le_of_lt (rank_level_lt_of_beats batch i j hg (Or.inl hp))
  · intro hp hij
    exact rank_level_lt_of_beats batch i j hg (Or.inr ⟨hp, hij⟩)

/-- A concrete 3-row single-request batch used as witness data. -/
def rankWitnessBatch : List (String × ℚ) :=
  [("a", 9), ("a", 5), ("a", 5)]

/-- Witness for C4: in `rankWitnessBatch`, the higher-probability row 0
ranks no worse than row 1, and the tied rows 1 and 2 keep input order. -/
theorem rank_level_monotone_witness :
    rank_level rankWitnessBatch ⟨0, by decide⟩ ≤
      rank_level rankWitnessBatch ⟨1, by decide⟩ ∧
    rank_level rankWitnessBatch ⟨1, by decide⟩ <
      rank_level rankWitnessBatch ⟨2, by decide⟩ :=
  ⟨(rank_level_monotone rankWitnessBatch ⟨0, by decide⟩ ⟨1, by decide⟩
      (by decide)).1 (by decide),
   (rank_level_monotone rankWitnessBatch ⟨1, by decide⟩ ⟨2, by decide⟩
      (by decide)).2 (by decide) (by decide)⟩

/-!
## Per-group relative-diff features (`preprocessing.py` lines 148–187)

```python
X_["forw_hours_diff_min"] = X_.groupby(["RequestID"])["forw_hours"].transform(
    lambda x: (x - x.min()) / x
)
```

and five analogous columns (`forw_hours_diff_mean`, `back_hours_diff_min`,
`back_hours_diff_mean`, `price_diff_min_perc`, `price_diff_mean_perc`),
all of the shape `(x - stat) / x` with `stat` the group's `min` or `mean`.
-/

/-- The values of a column restricted to the `RequestID` group `g`. -/
def groupVals {α : Type} (key : α → String) (colv : α → PFloat)
    (batch : List α) (g : String) : List PFloat :=
  (batch.filter (fun r => key r = g)).map colv

/-- `groupby(key)[col].transform(lambda x: (x - x.min()) / x)` at row `i`. -/
def groupDiffMin {α : Type} (key : α → String) (colv : α → PFloat)
    (batch : List α) (i : Fin batch.length) : PFloat :=
  ((colv (batch.get i)).sub
    (pandasMin (groupVals key colv batch (key (batch.get i))))).div
    (colv (batch.get i))

/-- `groupby(key)[col].transform(lambda x: (x - x.mean()) / x)` at row `i`. -/
def groupDiffMean {α : Type} (key : α → String) (colv : α → PFloat)
    (batch : List α) (i : Fin batch.length) : PFloat :=
  ((colv (batch.get i)).sub
    (pandasMean (groupVals key colv batch (key (batch.get i))))).div
    (colv (batch.get i))

theorem PFloat.add_nan_left (x : PFloat) : PFloat.add .nan x = .nan := by
  cases x <;> rfl

theorem PFloat.sub_nan_left (x : PFloat) : PFloat.sub .nan x = .nan := by
  unfold PFloat.sub
  exact PFloat.add_nan_left _

theorem PFloat.div_nan_left (y : PFloat) : PFloat.div .nan y = .nan := by
  cases y <;> rfl

/-- Dividing anything by the float `0` yields `nan`, `+inf` or `-inf` —
never an exception and never an ordinary finite value. -/
theorem PFloat.div_zero_sentinel (a : PFloat) :
    a.div (.val 0) = .nan ∨ a.div (.val 0) = .inf ∨ a.div (.val 0) = .ninf := by
  cases a with
  | nan => exact Or.inl rfl
  | inf => exact Or.inr (Or.inl (by simp [PFloat.div]))
  | ninf => exact Or.inr (Or.inr (by simp [PFloat.div]))
  | val q =>
      by_cases h : q = 0
      · exact Or.inl (by simp [PFloat.div, h])
      · by_cases h2 : 0 < q
        · exact Or.inr (Or.inl (by simp [PFloat.div, h, h2]))
        · exact Or.inr (Or.inr (by simp [PFloat.div, h, h2]))

/-- A row whose own column value is missing gets a missing diff-min
feature. -/
theorem groupDiffMin_nan {α : Type} (key : α → String) (colv : α → PFloat)
    (batch : List α) (i : Fin batch.length) (h : colv (batch.get i) = .nan) :
    groupDiffMin key colv batch i = .nan := by
  unfold groupDiffMin
  rw [h, PFloat.sub_nan_left, PFloat.div_nan_left]

/-- A row whose own column value is missing gets a missing diff-mean
feature. -/
theorem groupDiffMean_nan {α : Type} (key : α → String) (colv : α → PFloat)
    (batch : List α) (i : Fin batch.length) (h : colv (batch.get i) = .nan) :
    groupDiffMean key colv batch i = .nan := by
  unfold groupDiffMean
  rw [h, PFloat.sub_nan_left, PFloat.div_nan_left]

/-- The columns entering the six relative-diff features of `transform`. -/
structure FRow : Type where
  RequestID : String
  forw_hours : PFloat
  back_hours : PFloat
  Amount : PFloat
deriving DecidableEq, Repr

/-- `forw_hours_diff_min` (`preprocessing.py` lines 148–150). -/
def forw_hours_diff_min (b : List FRow) (i : Fin b.length) : PFloat :=
  groupDiffMin FRow.RequestID FRow.forw_hours b i

/-- `forw_hours_diff_mean` (lines 153–155). -/
def forw_hours_diff_mean (b : List FRow) (i : Fin b.length) : PFloat :=
  groupDiffMean FRow.RequestID FRow.forw_hours b i

/-- `back_hours_diff_min` (lines 158–160). -/
def back_hours_diff_min (b : List FRow) (i : Fin b.length) : PFloat :=
  groupDiffMin FRow.RequestID FRow.back_hours b i

/-- `back_hours_diff_mean` (lines 163–165). -/
def back_hours_diff_mean (b : List FRow) (i : Fin b.length) : PFloat :=
  groupDiffMean FRow.RequestID FRow.back_hours b i

/-- `price_diff_min_perc` (lines 180–182). -/
def price_diff_min_perc (b : List FRow) (i : Fin b.length) : PFloat :=
  groupDiffMin FRow.RequestID FRow.Amount b i

/-- `price_diff_mean_perc` (lines 185–187). -/
def price_diff_mean_perc (b : List FRow) (i : Fin b.length) : PFloat :=
  groupDiffMean FRow.RequestID FRow.Amount b i

/-- Membership in the sentinel set {nan, +inf, -inf}. -/
def isSentinel (x : PFloat) : Prop := x = .nan ∨ x = .inf ∨ x = .ninf

/-- C7: on a row whose own value is 0, each of the six relative-diff
features is a defined sentinel (`nan` or a signed infinity) — the division
by zero is total and treated identically in all six columns. -/
theorem diff_features_zero_sentinel (b : List FRow) (i : Fin b.length) :
    ((b.get i).forw_hours = .val 0 → isSentinel (forw_hours_diff_min b i)) ∧
    ((b.get i).forw_hours = .val 0 → isSentinel (forw_hours_diff_mean b i)) ∧
    ((b.get i).back_hours = .val 0 → isSentinel (back_hours_diff_min b i)) ∧
    ((b.get i).back_hours = .val 0 → isSentinel (back_hours_diff_mean b i)) ∧
    ((b.get i).Amount = .val 0 → isSentinel (price_diff_min_perc b i)) ∧
    ((b.get i).Amount = .val 0 → isSentinel (price_diff_mean_perc b i)) := by
  refine ⟨fun h => ?_, fun h => ?_, fun h => ?_, fun h => ?_, fun h => ?_,
    fun h => ?_⟩
  · unfold forw_hours_diff_min groupDiffMin
    rw [h]
    exact PFloat.div_zero_sentinel _
  · unfold forw_hours_diff_mean groupDiffMean
    rw [h]
    exact PFloat.div_zero_sentinel _
  · unfold back_hours_diff_min groupDiffMin
    rw [h]
    exact PFloat.div_zero_sentinel _
  · unfold back_hours_diff_mean groupDiffMean
    rw [h]
    exact PFloat.div_zero_sentinel _
  · unfold price_diff_min_perc groupDiffMin
    rw [h]
    exact PFloat.div_zero_sentinel _
  · unfold price_diff_mean_perc groupDiffMean
    rw [h]
    exact PFloat.div_zero_sentinel _

/-- A one-row batch whose three feature columns are all 0. -/
def zeroFRowBatch : List FRow :=
  [⟨"r", .val 0, .val 0, .val 0⟩]

/-- Witness for C7 at a concrete batch with a zero row. -/
theorem diff_features_zero_sentinel_witness :
    isSentinel (forw_hours_diff_min zeroFRowBatch ⟨0, by decide⟩) ∧
    isSentinel (forw_hours_diff_mean zeroFRowBatch ⟨0, by decide⟩) ∧
    isSentinel (back_hours_diff_min zeroFRowBatch ⟨0, by decide⟩) ∧
    isSentinel (back_hours_diff_mean zeroFRowBatch ⟨0, by decide⟩) ∧
    isSentinel (price_diff_min_perc zeroFRowBatch ⟨0, by decide⟩) ∧
    isSentinel (price_diff_mean_perc zeroFRowBatch ⟨0, by decide⟩) := by
  have h := diff_features_zero_sentinel zeroFRowBatch ⟨0, by decide⟩
  exact ⟨h.1 rfl, h.2.1 rfl, h.2.2.1 rfl, h.2.2.2.1 rfl, h.2.2.2.2.1 rfl,
    h.2.2.2.2.2 rfl⟩

/-!
## Return-leg features for one-way rows
(`preprocessing.py` lines 72–132 and 140–165)

The route parsing (`extract_airports`) and airport lookup
(`get_airport_info`) live in `src/service/src/utils.py`, absent from the
sources under verification; they are modelled from the specification
(§4.1).  The route encoding itself is unspecified, so the parser is passed
in as a function; the spec pins down only that a route with no return
segment yields empty-string return codes.
-/

/-- Modelled from the spec: `get_airport_info`
(`src/service/src/utils.py`, absent from the sources) — §4.1
"`resolve(code) -> (timezone, country)`; returns `(None, None)` for an
unknown or empty code — never raises." -/
def get_airport_info (code : String)
    (airport_data : List (String × String × String)) :
    Option String × Option String :=
  if code = "" then (none, none)
  else
    match airport_data.lookup code with
    | some tc => (some tc.1, some tc.2)
    | none => (none, none)

/-- The raw per-row fields that feed the return-leg computations. -/
structure RawLeg : Type where
  RequestID : String
  SearchRoute : String
  SegmentCount : ℤ
  ReturnDepatrureDate : Option ℤ
  ReturnArrivalDate : Option ℤ
deriving DecidableEq, Repr

/-- `dep_back`: third component of `extract_airports(SearchRoute)`
(`preprocessing.py` lines 72–75); the parser `ea` is a parameter. -/
def dep_back (ea : String → String × String × String × String)
    (r : RawLeg) : String := (ea r.SearchRoute).2.2.1

/-- `arr_back`: fourth component of `extract_airports(SearchRoute)`. -/
def arr_back (ea : String → String × String × String × String)
    (r : RawLeg) : String := (ea r.SearchRoute).2.2.2

/-- `ReturnDepatrureDate_conv` (`preprocessing.py` lines 125–132): the
zone conversion is applied only when `dep_back != ""`; otherwise the cell
is `pd.to_datetime(np.nan)`, i.e. `NaT`.  The converter `ctz` (from
`utils.py`, absent) is a parameter acting on possibly-missing timestamps
and timezones. -/
def ReturnDepatrureDate_conv
    (ea : String → String × String × String × String)
    (ctz : Option ℤ → Option String → Option String → Option ℤ)
    (airport_data : List (String × String × String)) (r : RawLeg) :
    Option ℤ :=
  if dep_back ea r ≠ "" then
    ctz r.ReturnDepatrureDate
      (get_airport_info (dep_back ea r) airport_data).1
      (get_airport_info (arr_back ea r) airport_data).1
  else none

/-- `back_hours` (`preprocessing.py` lines 140–142):
`(ReturnArrivalDate - ReturnDepatrureDate_conv) / timedelta64(1, "h")`.
`NaT` in either operand propagates to a `NaN` number of hours. -/
def back_hours_of
    (ea : String → String × String × String × String)
    (ctz : Option ℤ → Option String → Option String → Option ℤ)
    (airport_data : List (String × String × String)) (r : RawLeg) :
    PFloat :=
  match r.ReturnArrivalDate, ReturnDepatrureDate_conv ea ctz airport_data r with
  | some a, some d => .val (((a - d : ℤ) : ℚ) / 60)
  | _, _ => .nan

/-- C5: a one-way row — `SegmentCount == 1` with, per the §3 data model, a
`SearchRoute` containing no return segment (empty extracted return codes) —
gets a missing `back_hours`, missing `back_hours_diff_min` and
`back_hours_diff_mean`, and its return-leg airport pair resolves to
`(None, None)`. -/
theorem one_way_row_back_features_missing
    (ea : String → String × String × String × String)
    (ctz : Option ℤ → Option String → Option String → Option ℤ)
    (airport_data : List (String × String × String))
    (b : List RawLeg) (i : Fin b.length)
    (_hseg : (b.get i).SegmentCount = 1)
    (hdep : dep_back ea (b.get i) = "")
    (harr : arr_back ea (b.get i) = "") :
    back_hours_of ea ctz airport_data (b.get i) = .nan ∧
    groupDiffMin RawLeg.RequestID (back_hours_of ea ctz airport_data) b i
      = .nan ∧
    groupDiffMean RawLeg.RequestID (back_hours_of ea ctz airport_data) b i
      = .nan ∧
    get_airport_info (dep_back ea (b.get i)) airport_data = (none, none) ∧
    get_airport_info (arr_back ea (b.get i)) airport_data = (none, none) := by
  have hconv : ReturnDepatrureDate_conv ea ctz airport_data (b.get i) = none := by
    unfold ReturnDepatrureDate_conv
    exact if_neg (fun hc => hc hdep)
  have hbh : back_hours_of ea ctz airport_data (b.get i) = .nan := by
    unfold back_hours_of
    rw [hconv]
    cases (b.get i).ReturnArrivalDate <;> rfl
  refine ⟨hbh, ?_, ?_, ?_, ?_⟩
  · exact groupDiffMin_nan _ _ _ _ hbh
  · exact groupDiffMean_nan _ _ _ _ hbh
  · rw [hdep]
    rfl
  · rw [harr]
    rfl

/-- A concrete route parser for witness purposes: outbound pair only. -/
def eaOneWay : String → String × String × String × String :=
  fun _ => ("AAA", "BBB", "", "")

/-- A concrete zone converter for witness purposes. -/
def ctzId : Option ℤ → Option String → Option String → Option ℤ :=
  fun t _ _ => t

/-- A concrete one-way row batch for witness purposes. -/
def oneWayBatch : List RawLeg :=
  [⟨"r", "AAABBB", 1, none, none⟩]

/-- Witness for C5 at a concrete one-way batch. -/
theorem one_way_row_back_features_missing_witness :
    back_hours_of eaOneWay ctzId [] (oneWayBatch.get ⟨0, by decide⟩) = .nan ∧
    groupDiffMin RawLeg.RequestID (back_hours_of eaOneWay ctzId [])
      oneWayBatch ⟨0, by decide⟩ = .nan ∧
    groupDiffMean RawLeg.RequestID (back_hours_of eaOneWay ctzId [])
      oneWayBatch ⟨0, by decide⟩ = .nan ∧
    get_airport_info (dep_back eaOneWay (oneWayBatch.get ⟨0, by decide⟩)) []
      = (none, none) ∧
    get_airport_info (arr_back eaOneWay (oneWayBatch.get ⟨0, by decide⟩)) []
      = (none, none) :=
  one_way_row_back_features_missing eaOneWay ctzId [] oneWayBatch
    ⟨0, by decide⟩ rfl rfl rfl

/-!
## Service boundary: model routing and `/predict_batch`
(`main.py` lines 27–47 and 60–82)

Rows at the service boundary are association lists from column name to a
dynamic `Cell` value, mirroring the dict-of-dicts wire format.  The two
scoring models are opaque row-wise functions (`predict_proba` restricted
to the positive class), and the configuration's two feature-column lists
come from `config.py`, absent from the sources, so both stay abstract.
-/

/-- A dynamic DataFrame/JSON cell at the service boundary. -/
inductive Cell : Type where
  | num (q : ℚ) : Cell
  | intv (n : ℤ) : Cell
  | str (s : String) : Cell
  | boolv (b : Bool) : Cell
  | nan : Cell
  | null : Cell
deriving DecidableEq, Repr

/-- `pd.isna` on a dynamic cell (`NaN` and `None` are both missing). -/
def Cell.isna : Cell → Bool
  | .nan => true
  | .null => true
  | _ => false

/-- A row of a dynamic DataFrame: column name to cell. -/
abbrev DRow : Type := List (String × Cell)

/-- Access a row's column (dict-style, first match). -/
def colGet : DRow → String → Option Cell
  | [], _ => none
  | p :: t, c => if p.1 = c then some p.2 else colGet t c

/-- The value of a column, `null` when the column is absent (a pandas
`KeyError` never occurs for the columns the service touches). -/
def getCol (r : DRow) (c : String) : Cell := (colGet r c).getD .null

/-- Column assignment `df[c] = v` on a row: overwrite an existing column
in place, else append it at the end (pandas column order). -/
def setCol (r : DRow) (c : String) (v : Cell) : DRow :=
  if (colGet r c).isSome then
    r.map (fun p => if p.1 = c then (c, v) else p)
  else r ++ [(c, v)]

/-- The two feature-column lists of `ServiceConfig`
(`config.py`, external). -/
structure ServiceConfig : Type where
  cols_model_one_way : List String
  cols_model_two_way : List String

/-- `inference` (`main.py` lines 27–47): if any row of the batch has a
missing `back_hours`, score the whole batch with the one-way model over
the one-way columns, else with the round-trip model over the round-trip
columns. -/
def inference (cfg : ServiceConfig) (m1 m2 : List Cell → ℚ)
    (data : List DRow) : List ℚ :=
  if 0 < data.countP (fun r => (getCol r "back_hours").isna) then
    data.map (fun r => m1 (cfg.cols_model_one_way.map (getCol r)))
  else
    data.map (fun r => m2 (cfg.cols_model_two_way.map (getCol r)))

/-- C2: model routing is batch-level — one missing `back_hours` anywhere
routes the whole batch (one-way columns, one-way model); a batch with no
missing `back_hours` goes entirely to the round-trip model and columns. -/
theorem inference_batch_routing (cfg : ServiceConfig) (m1 m2 : List Cell → ℚ)
    (data : List DRow) :
    ((∃ r ∈ data, (getCol r "back_hours").isna = true) →
      inference cfg m1 m2 data =
        data.map (fun r => m1 (cfg.cols_model_one_way.map (getCol r)))) ∧
    ((∀ r ∈ data, (getCol r "back_hours").isna = false) →
      inference cfg m1 m2 data =
        data.map (fun r => m2 (cfg.cols_model_two_way.map (getCol r)))) := by
  constructor
  · rintro ⟨r, hr, hp⟩
    unfold inference
    rw [if_pos (List.countP_pos_iff.mpr ⟨r, hr, hp⟩)]
  · intro h
    unfold inference
    rw [if_neg ?_]
    have hz : data.countP (fun r => (getCol r "back_hours").isna) = 0 :=
      List.countP_eq_zero.mpr (fun r hr => by rw [h r hr]; exact Bool.false_ne_true)
    omega

/-- The spec's mixed-batch scenario: two rows of one request, one with
missing `back_hours`, one with `back_hours = 4.0`. -/
def mixedBatch : List DRow :=
  [[("RequestID", .str "x"), ("back_hours", .nan)],
   [("RequestID", .str "x"), ("back_hours", .num 4)]]

/-- Witness for C2: the mixed batch is scored whole by the one-way model
over the one-way columns. -/
theorem inference_batch_routing_witness
    (cfg : ServiceConfig) (m1 m2 : List Cell → ℚ) :
    inference cfg m1 m2 mixedBatch =
      mixedBatch.map (fun r => m1 (cfg.cols_model_one_way.map (getCol r))) :=
  (inference_batch_routing cfg m1 m2 mixedBatch).1
    ⟨[("RequestID", .str "x"), ("back_hours", .nan)],
      List.mem_cons_self _ _, by decide⟩

/-- `NaN → None` on one cell (`main.py` line 80,
`fillna(np.nan).replace(np.nan, None)`). -/
def denanCell : Cell → Cell
  | .nan => .null
  | c => c

/-- `NaN → None` across a row. -/
def denanRow (r : DRow) : DRow := r.map (fun p => (p.1, denanCell p.2))

/-- The batch built from the request dict
(`pd.DataFrame().from_dict(request, orient="index")`, `main.py` line 65);
dict insertion order gives the row order. -/
def requestBatch (request : List (String × DRow)) : List DRow :=
  request.map Prod.snd

/-- The probability column (`main.py` line 71):
`inference(data_transformer.transform(batch))`.  The transformer `tf`
stands for `RequestTransformer.transform`. -/
def predictProbas (tf : List DRow → List DRow) (cfg : ServiceConfig)
    (m1 m2 : List Cell → ℚ) (request : List (String × DRow)) : List ℚ :=
  inference cfg m1 m2 (tf (requestBatch request))

/-- Each row's `RequestID` paired with its probability — the series
`batch.groupby(["RequestID"])["probas"]` ranks over. -/
def predictKeyed (tf : List DRow → List DRow) (cfg : ServiceConfig)
    (m1 m2 : List Cell → ℚ) (request : List (String × DRow)) :
    List (Cell × ℚ) :=
  ((requestBatch request).map (fun r => getCol r "RequestID")).zip
    (predictProbas tf cfg m1 m2 request)

/-- The `rank_level` column (`main.py` lines 74–78). -/
def predictRanks (tf : List DRow → List DRow) (cfg : ServiceConfig)
    (m1 m2 : List Cell → ℚ) (request : List (String × DRow)) : List ℕ :=
  List.ofFn (rank_level (predictKeyed tf cfg m1 m2 request))

/-- One output row: the raw input row with the `probas` and `rank_level`
columns assigned and `NaN` replaced by `None`. -/
def predictRow (rp : DRow × ℚ × ℕ) : DRow :=
  denanRow (setCol (setCol rp.1 "probas" (.num rp.2.1))
    "rank_level" (.intv (rp.2.2 : ℤ)))

/-- `get_predict` (`main.py` lines 60–82): builds the batch from the
request dict, scores it through the transformer and `inference`, ranks it
per `RequestID`, replaces `NaN` by `None`, and returns
`batch.to_dict(orient="index")` — the ORIGINAL batch columns plus
`probas` and `rank_level` (the enriched frame `tranformed_batch` is used
only to compute the probabilities and is not returned). -/
def get_predict (tf : List DRow → List DRow) (cfg : ServiceConfig)
    (m1 m2 : List Cell → ℚ) (request : List (String × DRow)) :
    List (String × DRow) :=
  (request.map Prod.fst).zip
    (((requestBatch request).zip
      ((predictProbas tf cfg m1 m2 request).zip
        (predictRanks tf cfg m1 m2 request))).map predictRow)

theorem colGet_map_update_self (r : DRow) (c : String) (v : Cell)
    (h : (colGet r c).isSome) :
    colGet (r.map (fun p => if p.1 = c then (c, v) else p)) c = some v := by
  induction r with
  | nil => simp [colGet] at h
  | cons p t ih =>
      by_cases hp : p.1 = c
      · simp [colGet, hp]
      · rw [colGet, if_neg hp] at h
        simp only [List.map_cons, if_neg hp]
        rw [colGet, if_neg hp]
        exact ih h

theorem colGet_append_self (r : DRow) (c : String) (v : Cell)
    (h : colGet r c = none) :
    colGet (r ++ [(c, v)]) c = some v := by
  induction r with
  | nil => simp [colGet]
  | cons p t ih =>
      by_cases hp : p.1 = c
      · rw [colGet, if_pos hp] at h
        exact absurd h (by simp)
      · rw [colGet, if_neg hp] at h
        rw [List.cons_append, colGet, if_neg hp]
        exact ih h

theorem colGet_setCol_self (r : DRow) (c : String) (v : Cell) :
    colGet (setCol r c v) c = some v := by
  unfold setCol
  by_cases h : (colGet r c).isSome
  · rw [if_pos h]
    exact colGet_map_update_self r c v h
  · rw [if_neg h]
    exact colGet_append_self r c v (Option.not_isSome_iff_eq_none.mp h)

theorem colGet_map_update_other (r : DRow) (c c2 : String) (v : Cell)
    (h2 : c2 ≠ c) :
    colGet (r.map (fun p => if p.1 = c then (c, v) else p)) c2 =
      colGet r c2 := by
  induction r with
  | nil => rfl
  | cons p t ih =>
      by_cases hp : p.1 = c
      · simp only [List.map_cons, if_pos hp]
        rw [colGet, if_neg (fun hc => h2 hc.symm), colGet,
          if_neg (fun hc => h2 (hp ▸ hc).symm)]
        exact ih
      · simp only [List.map_cons, if_neg hp]
        rw [colGet, colGet]
        by_cases hq : p.1 = c2
        · rw [if_pos hq, if_pos hq]
        · rw [if_neg hq, if_neg hq]
          exact ih

theorem colGet_append_other (r : DRow) (c c2 : String) (v : Cell)
    (h2 : c2 ≠ c) :
    colGet (r ++ [(c, v)]) c2 = colGet r c2 := by
  induction r with
  | nil =>
      have : ¬ c = c2 := fun hc => h2 hc.symm
      simp [colGet, this]
  | cons p t ih =>
      rw [List.cons_append, colGet, colGet]
      by_cases hq : p.1 = c2
      · rw [if_pos hq, if_pos hq]
      · rw [if_neg hq, if_neg hq]
        exact ih

theorem colGet_setCol_other (r : DRow) (c c2 : String) (v : Cell)
    (h2 : c2 ≠ c) : colGet (setCol r c v) c2 = colGet r c2 := by
  unfold setCol
  by_cases h : (colGet r c).isSome
  · rw [if_pos h]
    exact colGet_map_update_other r c c2 v h2
  · rw [if_neg h]
    exact colGet_append_other r c c2 v h2

theorem colGet_denanRow (r : DRow) (c : String) :
    colGet (denanRow r) c = (colGet r c).map denanCell := by
  induction r with
  | nil => rfl
  | cons p t ih =>
      unfold denanRow at ih ⊢
      rw [List.map_cons, colGet, colGet]
      by_cases hq : p.1 = c
      · rw [if_pos hq, if_pos hq]
        rfl
      · rw [if_neg hq, if_neg hq]
        exact ih

/-- What one output row of `/predict_batch` contains: its probability,
its rank, and every original input column with `NaN` turned into `None`. -/
theorem predictRow_contents (r : DRow) (p : ℚ) (rk : ℕ) :
    colGet (predictRow (r, p, rk)) "probas" = some (.num p) ∧
    colGet (predictRow (r, p, rk)) "rank_level" = some (.intv (rk : ℤ)) ∧
    ∀ c v, c ≠ "probas" → c ≠ "rank_level" → colGet r c = some v →
      colGet (predictRow (r, p, rk)) c = some (denanCell v) := by
  refine ⟨?_, ?_, ?_⟩
  · unfold predictRow
    rw [colGet_denanRow,
      colGet_setCol_other _ _ _ _ (by decide),
      colGet_setCol_self]
    rfl
  · unfold predictRow
    rw [colGet_denanRow, colGet_setCol_self]
    rfl
  · intro c v hc1 hc2 hv
    unfold predictRow
    rw [colGet_denanRow, colGet_setCol_other _ _ _ _ hc2,
      colGet_setCol_other _ _ _ _ hc1, hv]
    rfl

theorem inference_length (cfg : ServiceConfig) (m1 m2 : List Cell → ℚ)
    (data : List DRow) : (inference cfg m1 m2 data).length = data.length := by
  unfold inference
  split <;> rw [List.length_map]

theorem getD_of_lt {α : Type} (l : List α) (i : ℕ) (d : α)
    (h : i < l.length) : l.getD i d = l.get ⟨i, h⟩ := by
  rw [List.getD_eq_getElem?_getD, List.getElem?_eq_getElem h]
  rfl

theorem map_fst_zip_of_le {α β : Type} (l1 : List α) (l2 : List β)
    (h : l1.length ≤ l2.length) : (l1.zip l2).map Prod.fst = l1 := by
  induction l1 generalizing l2 with
  | nil => rfl
  | cons a t ih =>
      cases l2 with
      | nil => simp at h
      | cons b t2 =>
          simp only [List.zip_cons_cons, List.map_cons]
          rw [ih t2 (by simpa using h)]

theorem map_snd_zip_of_le {α β : Type} (l1 : List α) (l2 : List β)
    (h : l2.length ≤ l1.length) : (l1.zip l2).map Prod.snd = l2 := by
  induction l1 generalizing l2 with
  | nil =>
      cases l2 with
      | nil => rfl
      | cons b t2 => simp at h
  | cons a t ih =>
      cases l2 with
      | nil => rfl
      | cons b t2 =>
          simp only [List.zip_cons_cons, List.map_cons]
          rw [ih t2 (by simpa using h)]

/-- C6 (amended): the `/predict_batch` output keeps the request's row keys
and order, and each output row is the ORIGINAL input row plus a `probas`
and a `rank_level` column, with `NaN` serialized as `None`; the
transformer's derived feature columns are not part of the output (only
its probabilities are consumed). -/
theorem get_predict_output_contents
    (tf : List DRow → List DRow) (cfg : ServiceConfig) (m1 m2 : List Cell → ℚ)
    (request : List (String × DRow))
    (hlen : (tf (requestBatch request)).length = request.length) :
    ((get_predict tf cfg m1 m2 request).map Prod.fst = request.map Prod.fst) ∧
    (∀ i : ℕ, i < request.length →
      ∃ b p rk, (requestBatch request)[i]? = some b ∧
        (predictProbas tf cfg m1 m2 request)[i]? = some p ∧
        (predictRanks tf cfg m1 m2 request)[i]? = some rk ∧
        ((get_predict tf cfg m1 m2 request).map Prod.snd)[i]? =
          some (predictRow (b, p, rk)) ∧
        colGet (predictRow (b, p, rk)) "probas" = some (.num p) ∧
        colGet (predictRow (b, p, rk)) "rank_level" = some (.intv (rk : ℤ)) ∧
        (∀ c v, c ≠ "probas" → c ≠ "rank_level" → colGet b c = some v →
          colGet (predictRow (b, p, rk)) c = some (denanCell v))) := by
  have hb : (requestBatch request).length = request.length := by
    rw [requestBatch, List.length_map]
  have hp : (predictProbas tf cfg m1 m2 request).length = request.length := by
    rw [predictProbas, inference_length, hlen]
  have hk : (predictKeyed tf cfg m1 m2 request).length = request.length := by
    rw [predictKeyed, List.length_zip, List.length_map, hb, hp, min_self]
  have hr : (predictRanks tf cfg m1 m2 request).length = request.length := by
    rw [predictRanks, List.length_ofFn, hk]
  have hpr : ((predictProbas tf cfg m1 m2 request).zip
      (predictRanks tf cfg m1 m2 request)).length = request.length := by
    rw [List.length_zip, hp, hr, min_self]
  have hrows : (((requestBatch request).zip
      ((predictProbas tf cfg m1 m2 request).zip
        (predictRanks tf cfg m1 m2 request))).map predictRow).length
      = request.length := by
    rw [List.length_map, List.length_zip, hb, hpr, min_self]
  have hsnd : (get_predict tf cfg m1 m2 request).map Prod.snd =
      ((requestBatch request).zip
        ((predictProbas tf cfg m1 m2 request).zip
          (predictRanks tf cfg m1 m2 request))).map predictRow := by
    rw [get_predict]
    exact map_snd_zip_of_le _ _ (by rw [hrows, List.length_map])
  constructor
  · rw [get_predict]
    exact map_fst_zip_of_le _ _ (by rw [hrows, List.length_map])
  · intro i hi
    have hb' : i < (requestBatch request).length := by omega
    have hp' : i < (predictProbas tf cfg m1 m2 request).length := by omega
    have hr' : i < (predictRanks tf cfg m1 m2 request).length := by omega
    have hcb := predictRow_contents ((requestBatch request).get ⟨i, hb'⟩)
      ((predictProbas tf cfg m1 m2 request).get ⟨i, hp'⟩)
      ((predictRanks tf cfg m1 m2 request).get ⟨i, hr'⟩)
    have e1 : (requestBatch request)[i]? =
        some ((requestBatch request).get ⟨i, hb'⟩) := by
      rw [List.getElem?_eq_getElem hb']
      rfl
    have e2 : (predictProbas tf cfg m1 m2 request)[i]? =
        some ((predictProbas tf cfg m1 m2 request).get ⟨i, hp'⟩) := by
      rw [List.getElem?_eq_getElem hp']
      rfl
    have e3 : (predictRanks tf cfg m1 m2 request)[i]? =
        some ((predictRanks tf cfg m1 m2 request).get ⟨i, hr'⟩) := by
      rw [List.getElem?_eq_getElem hr']
      rfl
    have e4 : ((predictProbas tf cfg m1 m2 request).zip
        (predictRanks tf cfg m1 m2 request))[i]? =
        some ((predictProbas tf cfg m1 m2 request).get ⟨i, hp'⟩,
          (predictRanks tf cfg m1 m2 request).get ⟨i, hr'⟩) :=
      List.getElem?_zip_eq_some.mpr ⟨e2, e3⟩
    have e5 : ((requestBatch request).zip
        ((predictProbas tf cfg m1 m2 request).zip
          (predictRanks tf cfg m1 m2 request)))[i]? =
        some ((requestBatch request).get ⟨i, hb'⟩,
          (predictProbas tf cfg m1 m2 request).get ⟨i, hp'⟩,
          (predictRanks tf cfg m1 m2 request).get ⟨i, hr'⟩) :=
      List.getElem?_zip_eq_some.mpr ⟨e1, e4⟩
    refine ⟨(requestBatch request).get ⟨i, hb'⟩,
      (predictProbas tf cfg m1 m2 request).get ⟨i, hp'⟩,
      (predictRanks tf cfg m1 m2 request).get ⟨i, hr'⟩, e1, e2, e3, ?_,
      hcb.1, hcb.2.1, hcb.2.2⟩
    rw [hsnd, List.getElem?_map, e5]
    rfl

/-- A trivial constant one-way model for concrete runs. -/
def mOne : List Cell → ℚ := fun _ => 1

/-- A trivial constant round-trip model for concrete runs. -/
def mTwo : List Cell → ℚ := fun _ => 0

/-- A minimal concrete configuration for concrete runs. -/
def cfgW : ServiceConfig := ⟨["back_hours"], ["back_hours"]⟩

/-- A one-row concrete request. -/
def reqW : List (String × DRow) :=
  [("0", [("RequestID", .str "x"), ("Amount", .num 100),
    ("back_hours", .nan)])]

/-- Witness for C6 (amended) at a concrete request with the identity
transformer. -/
theorem get_predict_output_contents_witness :
    ((get_predict (fun rows => rows) cfgW mOne mTwo reqW).map Prod.fst =
      reqW.map Prod.fst) ∧
    (∀ i : ℕ, i < reqW.length →
      ∃ b p rk, (requestBatch reqW)[i]? = some b ∧
        (predictProbas (fun rows => rows) cfgW mOne mTwo reqW)[i]? = some p ∧
        (predictRanks (fun rows => rows) cfgW mOne mTwo reqW)[i]? = some rk ∧
        ((get_predict (fun rows => rows) cfgW mOne mTwo reqW).map
          Prod.snd)[i]? = some (predictRow (b, p, rk)) ∧
        colGet (predictRow (b, p, rk)) "probas" = some (.num p) ∧
        colGet (predictRow (b, p, rk)) "rank_level" = some (.intv (rk : ℤ)) ∧
        (∀ c v, c ≠ "probas" → c ≠ "rank_level" → colGet b c = some v →
          colGet (predictRow (b, p, rk)) c = some (denanCell v))) :=
  get_predict_output_contents (fun rows => rows) cfgW mOne mTwo reqW rfl

/-- A transformer that, like the real `RequestTransformer.transform`,
adds a derived feature column (`is_direct`) to every row. -/
def tfAddDerived : List DRow → List DRow :=
  fun rows => rows.map (fun r => setCol r "is_direct" (.intv 1))

/-- Counterexample to C6 as stated: the transformer produced a derived
`is_direct` column, yet the `/predict_batch` output row does not contain
it — the endpoint returns the raw batch plus `probas`/`rank_level` only
(`main.py` builds the response from `batch`, not `tranformed_batch`). -/
theorem get_predict_drops_derived_columns :
    colGet (((get_predict tfAddDerived cfgW mOne mTwo reqW).map
      Prod.snd).getD 0 []) "is_direct" = none ∧
    colGet ((tfAddDerived (requestBatch reqW)).getD 0 [])
      "is_direct" = some (.intv 1) := by
  constructor
  · decide
  · decide

/-!
## `transform` never mutates its input (`preprocessing.py` lines 46–48)

`transform` begins with `X_ = X.copy()` (the source's "Don't touch
original :)") and every subsequent statement of the method writes only the
copy: column assignments `X_[c] = ...` and the rebinding
`X_ = pd.concat([X_, ...], axis=1)` (lines 51–198); `X` itself is never
assigned or mutated.  The body is embedded as a pipeline of
frame-to-frame steps applied to the working copy, with the caller's frame
carried alongside in the state.
-/

/-- A dynamic DataFrame: a list of rows. -/
abbrev Frame : Type := List DRow

/-- The state of a running `transform`: the caller's frame `X` and the
working copy `X_`. -/
structure TransformState : Type where
  X : Frame
  X_ : Frame

/-- Run the body of `transform`: start from `X_ = X.copy()` (line 48) and
apply each subsequent statement to the working frame only (lines 51–198,
each an `X_`-update). -/
def runPipeline (steps : List (Frame → Frame)) (X : Frame) : TransformState :=
  steps.foldl (fun s f => ⟨s.X, f s.X_⟩) ⟨X, X⟩

theorem runPipeline_foldl_X (steps : List (Frame → Frame))
    (s : TransformState) :
    (steps.foldl (fun s f => ⟨s.X, f s.X_⟩) s).X = s.X := by
  induction steps generalizing s with
  | nil => rfl
  | cons f t ih => exact ih _

/-- C10: whatever copy-directed steps make up the body of `transform`,
the caller's input frame is returned untouched — the enriched result is a
separate value. -/
theorem runPipeline_preserves_input (steps : List (Frame → Frame))
    (X : Frame) : (runPipeline steps X).X = X :=
  runPipeline_foldl_X steps ⟨X, X⟩
